import Mathlib

/-!
Verification of the streaming-audio client core (Go sources) against its
natural-language specification.  The Go code is shallowly embedded: pure
helpers become Lean functions, stateful components become explicit state
passing over structures, and the concurrent pieces are sequentialised
(each handler runs to completion, transport sends are recorded in a log).

Machine-integer notes: the ring-buffer cursors `w`/`r` are Go `int64`
monotone counters starting at 0; they are modelled as `ℕ` (they never go
negative, and the `int64` arithmetic `size - (w - r)` agrees with the `ℕ`
version on every state satisfying the buffer invariant, which is the only
regime in which the code is exercised).  `Length` is modelled as `ℤ`, the
value Go's `int64` subtraction produces.  Go `float64` arithmetic is
modelled exactly over `ℚ` (resampler) and `ℝ` (RMS, which needs `sqrt`);
`int16` wraparound is modelled where it can fire (`abs` of a sample).
-/

/-! ## Byte ring buffer (src/pkg/buffer/ring.go) -/

/-- State of the SPSC ring buffer of ring.go.  `w` and `r` are the cumulative
write/read byte counters, `buf` the backing store (only indices `< size` are
ever used), `size` the capacity and `closed` the close flag. -/
structure RingBuffer where
  w : ℕ
  r : ℕ
  buf : ℕ → ℕ
  size : ℕ
  closed : Bool

/-- Model of Go `copy(buf[dst:dst+len(data)], data)`: overwrite `data.length`
cells starting at `dst`, leave the rest of the store unchanged. -/
def copyTo (buf : ℕ → ℕ) (dst : ℕ) (data : List ℕ) : ℕ → ℕ :=
  fun i => if dst ≤ i ∧ i < dst + data.length then data.getD (i - dst) 0 else buf i

/-- `buffer.New`: fresh zeroed store, cursors at 0, open. -/
def RingBuffer.New (size : ℕ) : RingBuffer :=
  { w := 0, r := 0, buf := fun _ => 0, size := size, closed := false }

/-- `RingBuffer.Write` (ring.go:42-73).  Returns the updated buffer and the
number of bytes written.  The two `copyTo`s are the tail-segment and the
wrapped head-segment copies of the source. -/
def RingBuffer.Write (rb : RingBuffer) (data : List ℕ) : RingBuffer × ℕ :=
  if rb.closed then (rb, 0)
  else
    let avail := rb.size - (rb.w - rb.r)
    let n := min data.length avail
    if n = 0 then (rb, 0)
    else
      let pos := rb.w % rb.size
      let first := min n (rb.size - pos)
      let buf1 := copyTo rb.buf pos (data.take first)
      let buf2 := copyTo buf1 0 ((data.take n).drop first)
      ({ rb with buf := buf2, w := rb.w + n }, n)

/-- `RingBuffer.Read` (ring.go:78-103).  `outLen` is `len(out)`; the result
carries the updated buffer, the bytes read (in order), and the
closed-and-drained flag computed exactly as in the source. -/
def RingBuffer.Read (rb : RingBuffer) (outLen : ℕ) : RingBuffer × List ℕ × Bool :=
  let avail := rb.w - rb.r
  let n := min outLen avail
  if n = 0 then (rb, [], rb.closed)
  else
    let pos := rb.r % rb.size
    let first := min n (rb.size - pos)
    let out := (List.range first).map (fun i => rb.buf (pos + i)) ++
      (List.range (n - first)).map rb.buf
    ({ rb with r := rb.r + n }, out, rb.closed && decide (rb.r + n = rb.w))

/-- `RingBuffer.Length` (ring.go:106-110): the `int64` value `w - r`. -/
def RingBuffer.Length (rb : RingBuffer) : ℤ :=
  (rb.w : ℤ) - (rb.r : ℤ)

/-- `RingBuffer.Close` (ring.go:114-116). -/
def RingBuffer.Close (rb : RingBuffer) : RingBuffer :=
  { rb with closed := true }

/-- `RingBuffer.Clear` (ring.go:130-133): advance the read cursor to the
current write cursor, discarding unread data. -/
def RingBuffer.Clear (rb : RingBuffer) : RingBuffer :=
  { rb with r := rb.w }

/-- The spec invariant `0 ≤ W - R ≤ C`, phrased over the `ℕ` cursors. -/
def RingBuffer.Inv (rb : RingBuffer) : Prop :=
  rb.r ≤ rb.w ∧ rb.w - rb.r ≤ rb.size

instance (rb : RingBuffer) : Decidable rb.Inv := by
  unfold RingBuffer.Inv; infer_instance

/-- The logical FIFO contents: the unread bytes, oldest first. -/
def RingBuffer.contents (rb : RingBuffer) : List ℕ :=
  (List.range (rb.w - rb.r)).map (fun i => rb.buf ((rb.r + i) % rb.size))

/-- One producer/consumer operation on the ring buffer. -/
inductive RingOp where
  | write (data : List ℕ)
  | read (outLen : ℕ)
  | clear

/-- Apply one operation (discarding the returned values). -/
def RingBuffer.step (rb : RingBuffer) : RingOp → RingBuffer
  | RingOp.write d => (rb.Write d).1
  | RingOp.read k => (rb.Read k).1
  | RingOp.clear => rb.Clear

/-- Run a sequence of operations from a given state. -/
def RingBuffer.run (rb : RingBuffer) (ops : List RingOp) : RingBuffer :=
  ops.foldl RingBuffer.step rb

lemma RingBuffer.Write_inv (rb : RingBuffer) (data : List ℕ) (h : rb.Inv) :
    (rb.Write data).1.Inv := by
  unfold RingBuffer.Write
  dsimp only
  split
  · exact h
  · split
    · exact h
    · rcases h with ⟨h1, h2⟩
      constructor <;> simp only <;> omega

lemma RingBuffer.Write_size (rb : RingBuffer) (data : List ℕ) :
    (rb.Write data).1.size = rb.size := by
  unfold RingBuffer.Write
  dsimp only
  split
  · rfl
  · split <;> rfl

lemma RingBuffer.Read_inv (rb : RingBuffer) (k : ℕ) (h : rb.Inv) :
    (rb.Read k).1.Inv := by
  unfold RingBuffer.Read
  dsimp only
  split
  · exact h
  · rcases h with ⟨h1, h2⟩
    constructor <;> simp only <;> omega

lemma RingBuffer.Read_size (rb : RingBuffer) (k : ℕ) :
    (rb.Read k).1.size = rb.size := by
  unfold RingBuffer.Read
  dsimp only
  split <;> rfl

lemma RingBuffer.Clear_inv (rb : RingBuffer) (h : rb.Inv) : rb.Clear.Inv := by
  rcases h with ⟨h1, h2⟩
  exact ⟨le_refl _, by simp [RingBuffer.Clear]⟩

lemma RingBuffer.step_inv (rb : RingBuffer) (op : RingOp) (h : rb.Inv) :
    (rb.step op).Inv := by
  cases op with
  | write d => exact rb.Write_inv d h
  | read k => exact rb.Read_inv k h
  | clear => exact rb.Clear_inv h

lemma RingBuffer.step_size (rb : RingBuffer) (op : RingOp) :
    (rb.step op).size = rb.size := by
  cases op with
  | write d => exact rb.Write_size d
  | read k => exact rb.Read_size k
  | clear => rfl

lemma RingBuffer.run_inv (rb : RingBuffer) (ops : List RingOp) (h : rb.Inv) :
    (rb.run ops).Inv := by
  induction ops generalizing rb with
  | nil => exact h
  | cons op ops ih => exact ih _ (rb.step_inv op h)

lemma RingBuffer.run_size (rb : RingBuffer) (ops : List RingOp) :
    (rb.run ops).size = rb.size := by
  induction ops generalizing rb with
  | nil => rfl
  | cons op ops ih => rw [RingBuffer.run, List.foldl_cons, ← RingBuffer.run, ih,
      RingBuffer.step_size]

/-- C1.  For every sequence of Write, Read and Clear operations on a ring
buffer of capacity C, the invariant `0 ≤ W - R ≤ C` holds after every
operation, so `Length` never exceeds C and never goes negative.  (Any prefix
of a longer run is itself a run, so this covers every intermediate state.) -/
theorem ringBuffer_capacity_invariant (C : ℕ) (ops : List RingOp) :
    ((RingBuffer.New C).run ops).Inv ∧
      0 ≤ ((RingBuffer.New C).run ops).Length ∧
      ((RingBuffer.New C).run ops).Length ≤ (C : ℤ) := by
  have hinv : ((RingBuffer.New C).run ops).Inv :=
    RingBuffer.run_inv _ _ ⟨le_refl 0, by simp [RingBuffer.New]⟩
  have hsz : ((RingBuffer.New C).run ops).size = C := RingBuffer.run_size _ _
  rcases hinv with ⟨h1, h2⟩
  refine ⟨⟨h1, h2⟩, ?_, ?_⟩ <;> unfold RingBuffer.Length <;> omega

/-! ### FIFO correctness of the ring buffer -/

lemma getD_take_of_lt {α : Type} (l : List α) (k j : ℕ) (e : α) (h : j < k) :
    (l.take k).getD j e = l.getD j e := by
  rcases Nat.lt_or_ge j l.length with h1 | h1
  · rw [List.getD_eq_getElem (l.take k) e (by simp [List.length_take]; omega),
      List.getD_eq_getElem l e h1]
    simp
  · rw [List.getD_eq_default (l.take k) e (by simp [List.length_take]; omega),
      List.getD_eq_default l e h1]

lemma getD_drop_add {α : Type} (l : List α) (k j : ℕ) (e : α) :
    (l.drop k).getD j e = l.getD (k + j) e := by
  rcases Nat.lt_or_ge (k + j) l.length with h1 | h1
  · rw [List.getD_eq_getElem (l.drop k) e (by simp [List.length_drop]; omega),
      List.getD_eq_getElem l e h1]
    simp
  · rw [List.getD_eq_default (l.drop k) e (by simp [List.length_drop]; omega),
      List.getD_eq_default l e h1]

lemma take_eq_range_map {α : Type} (l : List α) (n : ℕ) (e : α) (h : n ≤ l.length) :
    l.take n = (List.range n).map (fun j => l.getD j e) := by
  apply List.ext_getElem
  · simp [List.length_take]; omega
  · intro i h1 h2
    have hi : i < l.length := by simp [List.length_take] at h1; omega
    simp only [List.getElem_take, List.getElem_map, List.getElem_range]
    rw [List.getD_eq_getElem l e hi]

/-- Physical position of logical offset `t` from cursor `c` in a store of
`size` cells: below the wrap point it is `c % size + t`, above it the index
wraps to the head of the array. -/
lemma written_pos (size c t n : ℕ) (hsz : 0 < size) (hns : n ≤ size) (ht : t < n) :
    (c + t) % size =
      if t < min n (size - c % size) then c % size + t else t - (size - c % size) := by
  have hpos : c % size < size := Nat.mod_lt _ hsz
  have hkey : (c + t) % size = (c % size + t) % size := by
    conv_lhs => rw [Nat.add_mod]
    rw [Nat.mod_eq_of_lt (lt_of_lt_of_le ht hns)]
  split
  · next h => rw [hkey, Nat.mod_eq_of_lt (by omega)]
  · next h =>
    rw [hkey]
    have h2 : c % size + t = size + (t - (size - c % size)) := by omega
    rw [h2, Nat.add_mod_left, Nat.mod_eq_of_lt (by omega)]

/-- A cell written at logical offset `d + t` (beyond the unread region of
length `d`) never aliases the cell of an unread offset `i < d`, as long as
`d + n ≤ size`. -/
lemma mod_written_ne_unread (size r d n i t : ℕ) (hsz : 0 < size) (hdn : d + n ≤ size)
    (hi : i < d) (ht : t < n) : (r + (d + t)) % size ≠ (r + i) % size := by
  intro h
  have h2 : (d + t) % size = i % size := Nat.ModEq.add_left_cancel' r h
  rw [Nat.mod_eq_of_lt (by omega), Nat.mod_eq_of_lt (by omega)] at h2
  omega

lemma RingBuffer.Write_eq_zero (rb : RingBuffer) (data : List ℕ) (hopen : rb.closed = false)
    (h0 : min data.length (rb.size - (rb.w - rb.r)) = 0) :
    rb.Write data = (rb, 0) := by
  unfold RingBuffer.Write
  rw [hopen]
  simp only [Bool.false_eq_true, if_false]
  rw [if_pos h0]

lemma RingBuffer.Write_eq_pos (rb : RingBuffer) (data : List ℕ) (hopen : rb.closed = false)
    (h0 : min data.length (rb.size - (rb.w - rb.r)) ≠ 0) :
    rb.Write data =
      ({ rb with
          buf := copyTo
            (copyTo rb.buf (rb.w % rb.size)
              (data.take (min (min data.length (rb.size - (rb.w - rb.r)))
                (rb.size - rb.w % rb.size))))
            0
            ((data.take (min data.length (rb.size - (rb.w - rb.r)))).drop
              (min (min data.length (rb.size - (rb.w - rb.r)))
                (rb.size - rb.w % rb.size))),
          w := rb.w + min data.length (rb.size - (rb.w - rb.r)) },
        min data.length (rb.size - (rb.w - rb.r))) := by
  unfold RingBuffer.Write
  rw [hopen]
  simp only [Bool.false_eq_true, if_false]
  rw [if_neg h0]

lemma RingBuffer.Read_eq_zero (rb : RingBuffer) (k : ℕ)
    (h0 : min k (rb.w - rb.r) = 0) :
    rb.Read k = (rb, [], rb.closed) := by
  unfold RingBuffer.Read
  dsimp only
  rw [if_pos h0]

lemma RingBuffer.Read_eq_pos (rb : RingBuffer) (k : ℕ)
    (h0 : min k (rb.w - rb.r) ≠ 0) :
    rb.Read k =
      ({ rb with r := rb.r + min k (rb.w - rb.r) },
        (List.range (min (min k (rb.w - rb.r)) (rb.size - rb.r % rb.size))).map
            (fun i => rb.buf (rb.r % rb.size + i)) ++
          (List.range (min k (rb.w - rb.r) -
            min (min k (rb.w - rb.r)) (rb.size - rb.r % rb.size))).map rb.buf,
        rb.closed && decide (rb.r + min k (rb.w - rb.r) = rb.w)) := by
  unfold RingBuffer.Read
  dsimp only
  rw [if_neg h0]

/-- Full functional characterisation of `Write` on an open buffer satisfying
the invariant: the return value, the cursor motion, and the FIFO contents
(the accepted prefix of `data` is appended, across the wraparound split). -/
lemma RingBuffer.Write_spec (rb : RingBuffer) (data : List ℕ) (hinv : rb.Inv)
    (hopen : rb.closed = false) :
    (rb.Write data).2 = min data.length (rb.size - (rb.w - rb.r)) ∧
    (rb.Write data).1.w = rb.w + min data.length (rb.size - (rb.w - rb.r)) ∧
    (rb.Write data).1.r = rb.r ∧
    (rb.Write data).1.size = rb.size ∧
    (rb.Write data).1.closed = rb.closed ∧
    (rb.Write data).1.contents =
      rb.contents ++ data.take (min data.length (rb.size - (rb.w - rb.r))) := by
  rcases hinv with ⟨hrw, hds⟩
  by_cases h0 : min data.length (rb.size - (rb.w - rb.r)) = 0
  · rw [rb.Write_eq_zero data hopen h0, h0]
    simp
  · rw [rb.Write_eq_pos data hopen h0]
    set d := rb.w - rb.r with hd
    set n := min data.length (rb.size - d) with hn
    set pos := rb.w % rb.size with hposdef
    set first := min n (rb.size - pos) with hfirst
    have hnd : n ≤ data.length := Nat.min_le_left _ _
    have hnsd : n ≤ rb.size - d := Nat.min_le_right _ _
    have hdn : d + n ≤ rb.size := by omega
    have hn0 : 0 < n := Nat.pos_of_ne_zero h0
    have hsz : 0 < rb.size := by omega
    have hpos : pos < rb.size := Nat.mod_lt _ hsz
    have hf_le : first ≤ n := Nat.min_le_left _ _
    have hfirstlen : (data.take first).length = first := by
      simp [List.length_take]; omega
    have hsecondlen : ((data.take n).drop first).length = n - first := by
      simp [List.length_take]; omega
    set buf1 := copyTo rb.buf pos (data.take first) with hbuf1
    set buf2 := copyTo buf1 0 ((data.take n).drop first) with hbuf2
    have hnew : ∀ t, t < n → buf2 ((rb.w + t) % rb.size) = data.getD t 0 := by
      intro t ht
      have hw := written_pos rb.size rb.w t n hsz (by omega) ht
      rw [← hposdef, ← hfirst] at hw
      by_cases htf : t < first
      · rw [hw, if_pos htf, hbuf2, copyTo]
        have hnot2 : ¬ (0 ≤ pos + t ∧ pos + t < 0 + ((data.take n).drop first).length) := by
          rw [hsecondlen]
          rintro ⟨-, hlt⟩
          omega
        rw [if_neg hnot2, hbuf1, copyTo]
        have hin1 : pos ≤ pos + t ∧ pos + t < pos + (data.take first).length := by
          rw [hfirstlen]; omega
        rw [if_pos hin1]
        have ha : pos + t - pos = t := by omega
        rw [ha, getD_take_of_lt _ _ _ _ htf]
      · rw [hw, if_neg htf, hbuf2, copyTo]
        have hin2 : 0 ≤ t - (rb.size - pos) ∧
            t - (rb.size - pos) < 0 + ((data.take n).drop first).length := by
          rw [hsecondlen]; omega
        rw [if_pos hin2]
        have ha : t - (rb.size - pos) - 0 = t - first := by omega
        rw [ha, getD_drop_add]
        have hb : first + (t - first) = t := by omega
        rw [hb, getD_take_of_lt _ _ _ _ ht]
    have hold : ∀ i, i < d → buf2 ((rb.r + i) % rb.size) = rb.buf ((rb.r + i) % rb.size) := by
      intro i hi
      have hxlt : (rb.r + i) % rb.size < rb.size := Nat.mod_lt _ hsz
      have hnot2 : ¬ (0 ≤ (rb.r + i) % rb.size ∧
          (rb.r + i) % rb.size < 0 + ((data.take n).drop first).length) := by
        rw [hsecondlen]
        rintro ⟨-, hlt⟩
        have hfn : first < n := by omega
        have hfeq : first = rb.size - pos := by omega
        have ht : first + (rb.r + i) % rb.size < n := by omega
        have hw := written_pos rb.size rb.w (first + (rb.r + i) % rb.size) n hsz (by omega) ht
        rw [← hposdef, ← hfirst, if_neg (by omega)] at hw
        have hwx : (rb.w + (first + (rb.r + i) % rb.size)) % rb.size = (rb.r + i) % rb.size := by
          rw [hw]; omega
        apply mod_written_ne_unread rb.size rb.r d n i (first + (rb.r + i) % rb.size)
          hsz hdn hi ht
        have harr : rb.r + (d + (first + (rb.r + i) % rb.size)) =
            rb.w + (first + (rb.r + i) % rb.size) := by omega
        rw [harr, hwx]
      have hnot1 : ¬ (pos ≤ (rb.r + i) % rb.size ∧
          (rb.r + i) % rb.size < pos + (data.take first).length) := by
        rw [hfirstlen]
        rintro ⟨hge, hlt⟩
        have ht : (rb.r + i) % rb.size - pos < n := by omega
        have hw := written_pos rb.size rb.w ((rb.r + i) % rb.size - pos) n hsz (by omega) ht
        rw [← hposdef, ← hfirst, if_pos (by omega)] at hw
        have hwx : (rb.w + ((rb.r + i) % rb.size - pos)) % rb.size = (rb.r + i) % rb.size := by
          rw [hw]; omega
        apply mod_written_ne_unread rb.size rb.r d n i ((rb.r + i) % rb.size - pos)
          hsz hdn hi ht
        have harr : rb.r + (d + ((rb.r + i) % rb.size - pos)) =
            rb.w + ((rb.r + i) % rb.size - pos) := by omega
        rw [harr, hwx]
      rw [hbuf2, copyTo, if_neg hnot2, hbuf1, copyTo, if_neg hnot1]
    refine ⟨rfl, rfl, rfl, rfl, rfl, ?_⟩
    unfold RingBuffer.contents
    dsimp only
    have harr : rb.w + n - rb.r = d + n := by omega
    rw [harr, List.range_add, List.map_append, List.map_map]
    congr 1
    · apply List.map_congr_left
      intro i hmem
      rw [List.mem_range] at hmem
      exact hold i hmem
    · rw [take_eq_range_map data n 0 hnd]
      apply List.map_congr_left
      intro t hmem
      rw [List.mem_range] at hmem
      show buf2 ((rb.r + (d + t)) % rb.size) = data.getD t 0
      have harr2 : rb.r + (d + t) = rb.w + t := by omega
      rw [harr2]
      exact hnew t hmem

/-- Full functional characterisation of `Read` under the invariant: the bytes
returned are the oldest `min k (W-R)` buffered bytes in FIFO order (across the
wraparound split), and they are consumed from the contents. -/
lemma RingBuffer.Read_spec (rb : RingBuffer) (k : ℕ) (hinv : rb.Inv) :
    (rb.Read k).2.1 = rb.contents.take (min k (rb.w - rb.r)) ∧
    (rb.Read k).1.contents = rb.contents.drop (min k (rb.w - rb.r)) ∧
    (rb.Read k).2.1.length = min k (rb.w - rb.r) ∧
    (rb.Read k).1.w = rb.w ∧
    (rb.Read k).1.r = rb.r + min k (rb.w - rb.r) ∧
    (rb.Read k).1.size = rb.size ∧
    (rb.Read k).1.closed = rb.closed ∧
    (rb.Read k).1.buf = rb.buf := by
  rcases hinv with ⟨hrw, hds⟩
  by_cases h0 : min k (rb.w - rb.r) = 0
  · rw [rb.Read_eq_zero k h0, h0]
    simp
  · rw [rb.Read_eq_pos k h0]
    set d := rb.w - rb.r with hd
    set n := min k d with hn
    set pos := rb.r % rb.size with hposdef
    set first := min n (rb.size - pos) with hfirst
    have hn0 : 0 < n := Nat.pos_of_ne_zero h0
    have hnd : n ≤ d := Nat.min_le_right _ _
    have hsz : 0 < rb.size := by omega
    have hpos : pos < rb.size := Nat.mod_lt _ hsz
    have hf_le : first ≤ n := Nat.min_le_left _ _
    have hsplit : List.range d = List.range n ++ (List.range (d - n)).map (n + ·) := by
      rw [← List.range_add]
      congr 1
      omega
    have hcl : rb.contents.length = d := by
      unfold RingBuffer.contents
      rw [List.length_map, List.length_range, ← hd]
    have htaken : rb.contents.take n =
        (List.range n).map (fun i => rb.buf ((rb.r + i) % rb.size)) := by
      unfold RingBuffer.contents
      rw [← hd, hsplit, List.map_append]
      rw [List.take_left' (by rw [List.length_map, List.length_range])]
    have hdropn : rb.contents.drop n =
        ((List.range (d - n)).map (n + ·)).map (fun i => rb.buf ((rb.r + i) % rb.size)) := by
      unfold RingBuffer.contents
      rw [← hd, hsplit, List.map_append]
      rw [List.drop_left' (by rw [List.length_map, List.length_range])]
    have hposeq : ∀ t, t < n → (rb.r + t) % rb.size =
        if t < first then pos + t else t - (rb.size - pos) := by
      intro t ht
      have hw := written_pos rb.size rb.r t n hsz (by omega) ht
      rw [← hposdef, ← hfirst] at hw
      exact hw
    have hout : (List.range first).map (fun i => rb.buf (pos + i)) ++
        (List.range (n - first)).map rb.buf =
        (List.range n).map (fun i => rb.buf ((rb.r + i) % rb.size)) := by
      have hnsplit : List.range n = List.range first ++ (List.range (n - first)).map (first + ·) := by
        rw [← List.range_add]
        congr 1
        omega
      rw [hnsplit, List.map_append, List.map_map]
      congr 1
      · apply List.map_congr_left
        intro i hmem
        rw [List.mem_range] at hmem
        rw [hposeq i (by omega), if_pos hmem]
      · apply List.map_congr_left
        intro j hmem
        rw [List.mem_range] at hmem
        show rb.buf j = rb.buf ((rb.r + (first + j)) % rb.size)
        have hfn : first < n := by omega
        have hfeq : first = rb.size - pos := by omega
        rw [hposeq (first + j) (by omega), if_neg (by omega)]
        congr 1
        omega
    refine ⟨?_, ?_, ?_, rfl, rfl, rfl, rfl, rfl⟩
    · rw [htaken, ← hout]
    · rw [hdropn]
      unfold RingBuffer.contents
      dsimp only
      rw [List.map_map]
      have harr : rb.w - (rb.r + n) = d - n := by omega
      rw [harr]
      apply List.map_congr_left
      intro i hmem
      show rb.buf ((rb.r + n + i) % rb.size) = rb.buf ((rb.r + (n + i)) % rb.size)
      rw [Nat.add_assoc]
    · rw [List.length_append, List.length_map, List.length_map, List.length_range,
        List.length_range]
      omega

/-- The closed-and-drained flag returned by `Read`, characterised: it is true
exactly when the buffer is closed and either everything buffered fit in this
read (`W - R ≤ k`, covering the already-drained case) or the destination was
empty (`k = 0`). -/
lemma RingBuffer.Read_flag (rb : RingBuffer) (k : ℕ) (hinv : rb.Inv) :
    ((rb.Read k).2.2 = true) ↔ (rb.closed = true ∧ (rb.w - rb.r ≤ k ∨ k = 0)) := by
  rcases hinv with ⟨hrw, hds⟩
  by_cases h0 : min k (rb.w - rb.r) = 0
  · rw [rb.Read_eq_zero k h0]
    constructor
    · intro h
      exact ⟨h, by omega⟩
    · intro h
      exact h.1
  · rw [rb.Read_eq_pos k h0]
    simp only [Bool.and_eq_true, decide_eq_true_eq]
    constructor
    · rintro ⟨h1, h2⟩
      exact ⟨h1, by omega⟩
    · rintro ⟨h1, h2⟩
      exact ⟨h1, by omega⟩

/-- C2.  Write on an open buffer accepts exactly `min (len data) (C - (W-R))`
leading bytes, advances the write cursor by exactly that amount (0 when full),
and the accepted bytes are appended to the FIFO contents, which Read then
returns oldest-first — both directions across the wraparound split. -/
theorem ringBuffer_write_read_order :
    (∀ (rb : RingBuffer) (data : List ℕ), rb.Inv → rb.closed = false →
      (rb.Write data).2 = min data.length (rb.size - (rb.w - rb.r)) ∧
      (rb.Write data).1.w = rb.w + min data.length (rb.size - (rb.w - rb.r)) ∧
      (rb.Write data).1.contents =
        rb.contents ++ data.take (min data.length (rb.size - (rb.w - rb.r)))) ∧
    (∀ (rb : RingBuffer) (k : ℕ), rb.Inv →
      (rb.Read k).2.1 = rb.contents.take (min k (rb.w - rb.r)) ∧
      (rb.Read k).1.contents = rb.contents.drop (min k (rb.w - rb.r))) := by
  constructor
  · intro rb data hinv hopen
    obtain ⟨a, b, -, -, -, f⟩ := rb.Write_spec data hinv hopen
    exact ⟨a, b, f⟩
  · intro rb k hinv
    obtain ⟨a, b, -⟩ := rb.Read_spec k hinv
    exact ⟨a, b⟩

/-- Concrete buffer state exercising the wraparound split: capacity 4,
after writing 3 bytes and reading 2 of them (W = 3, R = 2). -/
def rbWitnessC2 : RingBuffer := (((RingBuffer.New 4).Write [1, 2, 3]).1.Read 2).1

theorem ringBuffer_write_read_order_witness :
    rbWitnessC2.Inv ∧ rbWitnessC2.closed = false ∧
    (rbWitnessC2.Write [4, 5, 6]).2 = 3 ∧
    (rbWitnessC2.Write [4, 5, 6]).1.contents = [3, 4, 5, 6] ∧
    ((rbWitnessC2.Write [4, 5, 6]).1.Read 4).2.1 = [3, 4, 5, 6] := by
  have h1 : rbWitnessC2.Inv := by decide
  have h2 : rbWitnessC2.closed = false := by decide
  have h3 := ringBuffer_write_read_order.1 rbWitnessC2 [4, 5, 6] h1 h2
  have h4 : (rbWitnessC2.Write [4, 5, 6]).1.Inv := by decide
  have h5 := ringBuffer_write_read_order.2 (rbWitnessC2.Write [4, 5, 6]).1 4 h4
  refine ⟨h1, h2, ?_, ?_, ?_⟩
  · rw [h3.1]; decide
  · rw [h3.2.2]; decide
  · rw [h5.1]; decide

/-- Open buffer containing one unread byte. -/
def rbPreC7 : RingBuffer := ((RingBuffer.New 4).Write [7]).1

/-- The same buffer after `Close`: one unread byte remains. -/
def rbClosedC7 : RingBuffer := rbPreC7.Close

/-- The closed buffer after draining its byte. -/
def rbDrainedC7 : RingBuffer := (rbClosedC7.Read 1).1

/-- C7 counterexample.  On a closed buffer still holding one byte
(`Length = 1`), a Read with an empty destination returns `(0, true)`: the
claim's "Read returns (0, true) exactly when the buffer is both closed and
fully drained" fails at this input, the buffer not being drained. -/
theorem ringBuffer_close_read_zero_counterexample :
    rbClosedC7.closed = true ∧ rbClosedC7.Length = 1 ∧
    (rbClosedC7.Read 0).2.1 = [] ∧ (rbClosedC7.Read 0).2.2 = true := by
  refine ⟨by decide, by decide, ?_, ?_⟩ <;> decide

/-- C7 (amended).  After Close: every Write returns 0 and leaves the buffer
unchanged; Read keeps returning buffered bytes until drained; for a read with
a nonempty destination the pair `(0, true)` comes back exactly when the
buffer is closed and fully drained; and an open buffer never reports true
(in particular an empty open buffer yields `(0, false)`).  The only deviation
from the claim as stated is the zero-length-destination read, which reports
`true` on a closed buffer even before it is drained. -/
theorem ringBuffer_close_semantics :
    (∀ (rb : RingBuffer) (data : List ℕ), rb.closed = true → rb.Write data = (rb, 0)) ∧
    (∀ (rb : RingBuffer) (k : ℕ), rb.Inv →
      (rb.Close.Read k).2.1 = rb.contents.take (min k (rb.w - rb.r))) ∧
    (∀ (rb : RingBuffer) (k : ℕ), rb.Inv → 0 < k →
      (((rb.Read k).2.1.length = 0 ∧ (rb.Read k).2.2 = true) ↔
        (rb.closed = true ∧ rb.contents = []))) ∧
    (∀ (rb : RingBuffer) (k : ℕ), rb.closed = false → (rb.Read k).2.2 = false) := by
  refine ⟨?_, ?_, ?_, ?_⟩
  · intro rb data h
    unfold RingBuffer.Write
    rw [h]
    simp
  · intro rb k hinv
    have hinv2 : rb.Close.Inv := hinv
    have h := (rb.Close.Read_spec k hinv2).1
    rw [h]
    rfl
  · intro rb k hinv hk
    obtain ⟨-, -, hlen, -⟩ := rb.Read_spec k hinv
    have hflag := rb.Read_flag k hinv
    have hclen : rb.contents.length = rb.w - rb.r := by
      unfold RingBuffer.contents
      simp
    constructor
    · rintro ⟨h1, h2⟩
      rw [hlen] at h1
      have hflag2 := hflag.mp h2
      refine ⟨hflag2.1, ?_⟩
      rw [← List.length_eq_zero]
      omega
    · rintro ⟨h1, h2⟩
      have hd0 : rb.w - rb.r = 0 := by
        rw [h2] at hclen
        simpa using hclen.symm
      constructor
      · rw [hlen]; omega
      · exact hflag.mpr ⟨h1, by omega⟩
  · intro rb k h
    by_cases h0 : min k (rb.w - rb.r) = 0
    · rw [rb.Read_eq_zero k h0]
      exact h
    · rw [rb.Read_eq_pos k h0]
      rw [h]
      simp

theorem ringBuffer_close_semantics_witness :
    (rbClosedC7.Write [9] = (rbClosedC7, 0)) ∧
    ((rbPreC7.Close.Read 1).2.1 = [7]) ∧
    ((rbDrainedC7.Read 1).2.1.length = 0 ∧ (rbDrainedC7.Read 1).2.2 = true) ∧
    (((RingBuffer.New 4).Read 3).2.2 = false) := by
  have h := ringBuffer_close_semantics
  refine ⟨h.1 rbClosedC7 [9] (by decide), ?_, ?_,
    h.2.2.2 (RingBuffer.New 4) 3 (by decide)⟩
  · rw [h.2.1 rbPreC7 1 (by decide)]
    decide
  · exact (h.2.2.1 rbDrainedC7 1 (by decide) (by decide)).mpr ⟨by decide, by decide⟩

/-! ## Resampler (src/pkg/utils/audio.go, ResampleAudio) -/

/-- Go conversion of a float to an integer type: truncation toward zero
(the resampler only produces values inside the int16 range). -/
def ratTrunc (q : ℚ) : ℤ := if 0 ≤ q then ⌊q⌋ else ⌈q⌉

/-- Model of `utils.ResampleAudio` (audio.go:159-190): linear interpolation.
Go `float64` arithmetic is modelled exactly over `ℚ`; `int(x)` on the
nonnegative length and source positions is `floor` (Go truncation toward
zero coincides with floor there).  The local `rate` is the source variable
`ratio = fromRate / toRate`. -/
def ResampleAudioLinear (input : List ℤ) (fromRate toRate : ℕ) : List ℤ :=
  if fromRate = toRate then input
  else
    let rate : ℚ := (fromRate : ℚ) / (toRate : ℚ)
    let outputLength : ℕ := (⌊(input.length : ℚ) / rate⌋).toNat
    (List.range outputLength).map (fun (i : ℕ) =>
      let srcPos : ℚ := (i : ℚ) * rate
      let srcIdx : ℕ := (⌊srcPos⌋).toNat
      if input.length - 1 ≤ srcIdx then input.getD (input.length - 1) 0
      else
        let fraction : ℚ := srcPos - (srcIdx : ℚ)
        let sample1 : ℚ := (input.getD srcIdx 0 : ℚ)
        let sample2 : ℚ := (input.getD (srcIdx + 1) 0 : ℚ)
        ratTrunc (sample1 + (sample2 - sample1) * fraction))

lemma ResampleAudioLinear_length (input : List ℤ) (fromRate toRate : ℕ)
    (hf : 0 < fromRate) (ht : 0 < toRate) :
    (ResampleAudioLinear input fromRate toRate).length =
      if fromRate = toRate then input.length else input.length * toRate / fromRate := by
  unfold ResampleAudioLinear
  split
  · rfl
  · dsimp only
    rw [List.length_map, List.length_range]
    have hq : (input.length : ℚ) / ((fromRate : ℚ) / (toRate : ℚ)) =
        ((input.length * toRate : ℕ) : ℚ) / ((fromRate : ℕ) : ℚ) := by
      have h1 : ((fromRate : ℕ) : ℚ) ≠ 0 := by positivity
      have h2 : ((toRate : ℕ) : ℚ) ≠ 0 := by positivity
      push_cast
      field_simp
    rw [hq, Rat.floor_natCast_div_natCast]
    rfl

/-- C8.  For a non-empty sample list and positive rates, the output length of
the resampler equals `floor(len * Fout / Fin)` to within plus or minus one
sample (in the exact-rational model it is equal, hence within one), and the
output is the input itself (so of equal length) when the rates coincide. -/
theorem resample_length_law (input : List ℤ) (fin fout : ℕ)
    (hne : input ≠ []) (hf : 0 < fin) (ht : 0 < fout) :
    ((((ResampleAudioLinear input fin fout).length : ℤ) -
        ((input.length * fout / fin : ℕ) : ℤ)).natAbs ≤ 1) ∧
    (fin = fout → ResampleAudioLinear input fin fout = input) := by
  constructor
  · rw [ResampleAudioLinear_length input fin fout hf ht]
    split
    · next h =>
      subst h
      rw [Nat.mul_div_cancel _ hf]
      simp
    · simp
  · intro h
    unfold ResampleAudioLinear
    rw [if_pos h]

theorem resample_length_law_witness :
    (([1, 2, 3] : List ℤ) ≠ [] ∧ 0 < 48000 ∧ 0 < 16000) ∧
    ((((ResampleAudioLinear [1, 2, 3] 48000 16000).length : ℤ) -
        ((3 * 16000 / 48000 : ℕ) : ℤ)).natAbs ≤ 1) ∧
    (ResampleAudioLinear [1, 2, 3] 16000 16000 = [1, 2, 3]) := by
  refine ⟨⟨by decide, by decide, by decide⟩, ?_, ?_⟩
  · exact (resample_length_law [1, 2, 3] 48000 16000 (by decide) (by decide) (by decide)).1
  · exact (resample_length_law [1, 2, 3] 16000 16000 (by decide) (by decide) (by decide)).2 rfl

/-! ## Recorder (src/internal/audio/recorder.go) — the slice relevant to the
capture-rate bookkeeping of a session -/

/-- The Recorder fields involved in the resampling math of a session.
`configCaptureRate`/`configOutputRate` are `config.CaptureSampleRate` and
`config.SampleRate`; `actualCaptureSampleRate` is the rate the opened stream
actually accepted (recorder.go:699). -/
structure Recorder where
  configCaptureRate : ℕ
  configOutputRate : ℕ
  actualCaptureSampleRate : ℕ
  streamingBuffer : List ℤ
  resampleBuffer : List ℤ
  streamingRequestID : String
  isRecording : Bool

/-- A dispatch the Recorder makes to its handler. -/
inductive RecorderEvent where
  | chunk (requestID : String) (samples : List ℤ) (isLast : Bool)
  | complete (requestID : String)
deriving DecidableEq

/-- Model of `Recorder.StopRecording` (recorder.go:719-780); the PortAudio
stream teardown is abstracted away.  Note the remainder resample at
recorder.go:754 passes `r.config.CaptureSampleRate`, the configured rate, not
`r.actualCaptureSampleRate`. -/
def Recorder.StopRecording (rec : Recorder) : Recorder × Option RecorderEvent :=
  if rec.isRecording = false then (rec, none)
  else
    let remainingBuffer := rec.streamingBuffer
    let resampleBuffer := rec.resampleBuffer
    let requestID := rec.streamingRequestID
    let rec2 : Recorder :=
      { rec with isRecording := false, streamingBuffer := [], resampleBuffer := [] }
    let resampleBuffer2 :=
      if remainingBuffer.length ≠ 0 then
        resampleBuffer ++
          ResampleAudioLinear remainingBuffer rec.configCaptureRate rec.configOutputRate
      else resampleBuffer
    if resampleBuffer2.length ≠ 0 then
      (rec2, some (RecorderEvent.chunk requestID resampleBuffer2 true))
    else
      (rec2, some (RecorderEvent.complete requestID))

/-- The resample the audio callback applies to each accumulated capture chunk
(recorder.go:809): it passes `r.actualCaptureSampleRate`. -/
def Recorder.callbackResample (rec : Recorder) (captureChunk : List ℤ) : List ℤ :=
  ResampleAudioLinear captureChunk rec.actualCaptureSampleRate rec.configOutputRate

/-- A session whose rate-fallback retry succeeded at a device rate different
from the configured capture rate, with a 6-sample remainder pending at stop. -/
def recC3 : Recorder :=
  { configCaptureRate := 3, configOutputRate := 1, actualCaptureSampleRate := 2,
    streamingBuffer := [0, 0, 0, 0, 0, 0], resampleBuffer := [],
    streamingRequestID := "req", isRecording := true }

/-- C3 (code-bug exhibit).  In a session whose negotiated capture rate (2)
differs from the configured one (3), `StopRecording` resamples the 6-sample
remainder at the configured rate, emitting a final chunk of 2 samples,
whereas the audio callback's resample of the same samples at the session's
actual rate yields 3 samples: the stop-flush does not use the rate that
actually succeeded, contradicting the claim. -/
theorem recorder_stop_flush_rate_divergence :
    recC3.StopRecording.2 =
      some (RecorderEvent.chunk "req" (ResampleAudioLinear [0, 0, 0, 0, 0, 0] 3 1) true) ∧
    (ResampleAudioLinear [0, 0, 0, 0, 0, 0] 3 1).length = 2 ∧
    (recC3.callbackResample [0, 0, 0, 0, 0, 0]).length = 3 ∧
    recC3.actualCaptureSampleRate ≠ recC3.configCaptureRate := by
  have hlen31 : (ResampleAudioLinear [0, 0, 0, 0, 0, 0] 3 1).length = 2 := by
    rw [ResampleAudioLinear_length _ _ _ (by norm_num) (by norm_num)]
    norm_num
  have hlen21 : (ResampleAudioLinear [0, 0, 0, 0, 0, 0] 2 1).length = 3 := by
    rw [ResampleAudioLinear_length _ _ _ (by norm_num) (by norm_num)]
    norm_num
  refine ⟨?_, hlen31, ?_, by decide⟩
  · simp [Recorder.StopRecording, recC3, hlen31]
  · show (ResampleAudioLinear [0, 0, 0, 0, 0, 0] 2 1).length = 3
    exact hlen21

/-! ## Audio diagnostics (src/pkg/utils/audio.go: CalculateRMS,
CalculateAudioStats, IsSilent) -/

/-- Go int16 wraparound: the value of an int16 expression reduced into
[-32768, 32767]. -/
def wrapInt16 (x : ℤ) : ℤ := (x + 32768) % 65536 - 32768

/-- The source's absolute value (`abs := sample; if abs < 0 then abs = -abs`)
on int16, including the wraparound of `-(-32768)`. -/
def goAbsInt16 (s : ℤ) : ℤ := if s < 0 then wrapInt16 (-s) else s

/-- Model of `utils.CalculateRMS` (audio.go:202-214).  The float64 sum of
squares and the square root are modelled over `ℝ`. -/
noncomputable def CalculateRMS (samples : List ℤ) : ℝ :=
  if samples.length = 0 then 0
  else Real.sqrt ((samples.map (fun (s : ℤ) => (s : ℝ) * (s : ℝ))).sum / (samples.length : ℝ))

/-- Model of the source struct `AudioStats`; the source field `SilenceRatio`
is named `SilenceFraction` here. -/
structure AudioStats where
  RMS : ℝ
  Peak : ℤ
  SilentSamples : ℕ
  TotalSamples : ℕ
  SilenceFraction : ℝ

/-- Model of `utils.CalculateAudioStats` (audio.go:217-254).  The source's
single loop is rendered as a sum/fold/count over the same samples. -/
noncomputable def CalculateAudioStats (samples : List ℤ) (silenceThreshold : ℤ) : AudioStats :=
  if samples.length = 0 then
    { RMS := 0, Peak := 0, SilentSamples := 0, TotalSamples := samples.length,
      SilenceFraction := 0 }
  else
    { RMS := Real.sqrt ((samples.map (fun (s : ℤ) => (s : ℝ) * (s : ℝ))).sum / (samples.length : ℝ))
      Peak := samples.foldl (fun p s => max p (goAbsInt16 s)) 0
      SilentSamples := (samples.filter (fun s => decide (goAbsInt16 s ≤ silenceThreshold))).length
      TotalSamples := samples.length
      SilenceFraction :=
        ((samples.filter (fun s => decide (goAbsInt16 s ≤ silenceThreshold))).length : ℝ) /
          (samples.length : ℝ) }

open Classical in
/-- Go conversion `int16(x)` of a float64, truncation toward zero (defined
for all reals; the source only applies it to small positive thresholds). -/
noncomputable def float64TruncToInt (x : ℝ) : ℤ := if 0 ≤ x then ⌊x⌋ else ⌈x⌉

/-- Model of `utils.IsSilent` (audio.go:259-276) as the predicate the Boolean
control flow decides: empty input, or RMS below the threshold, or the silence
fraction (at the derived per-sample threshold `int16(rmsThreshold * 0.5)`)
above the ratio threshold. -/
def IsSilent (samples : List ℤ) (rmsThreshold silenceRatioThreshold : ℝ) : Prop :=
  samples.length = 0 ∨
  CalculateRMS samples < rmsThreshold ∨
  (CalculateAudioStats samples
      (float64TruncToInt (rmsThreshold * 0.5))).SilenceFraction > silenceRatioThreshold

/-- C10.  The silence classifier on an empty window returns true for every
pair of thresholds, and the RMS of an empty list is 0. -/
theorem silence_empty_window (a b : ℝ) :
    IsSilent [] a b ∧ CalculateRMS [] = 0 := by
  constructor
  · exact Or.inl rfl
  · unfold CalculateRMS
    simp

lemma CalculateRMS_replicate_zero (n : ℕ) : CalculateRMS (List.replicate n 0) = 0 := by
  unfold CalculateRMS
  by_cases hn : n = 0
  · simp [hn]
  · rw [if_neg (by simp [hn])]
    simp

/-- The alternating full-scale buffer `[32767, -32767, 32767, ...]`. -/
def altMaxBuffer (n : ℕ) : List ℤ :=
  (List.range n).map (fun i => if i % 2 = 0 then 32767 else -32767)

lemma altMaxBuffer_length (n : ℕ) : (altMaxBuffer n).length = n := by
  simp [altMaxBuffer]

lemma altMax_rms (n : ℕ) (hn : 0 < n) : CalculateRMS (altMaxBuffer n) = 32767 := by
  unfold CalculateRMS altMaxBuffer
  rw [if_neg (by simp; omega)]
  have hmap : ((List.range n).map (fun i => if i % 2 = 0 then (32767 : ℤ) else -32767)).map
      (fun (s : ℤ) => (s : ℝ) * (s : ℝ)) = List.replicate n ((32767 : ℝ) * 32767) := by
    rw [List.map_map, List.eq_replicate_iff]
    refine ⟨by simp, ?_⟩
    intro x hx
    rw [List.mem_map] at hx
    obtain ⟨i, -, hxi⟩ := hx
    rw [← hxi]
    by_cases h : i % 2 = 0 <;> simp [h] <;> norm_num
  rw [hmap, List.sum_replicate, nsmul_eq_mul]
  rw [List.length_map, List.length_range]
  have hne : (n : ℝ) ≠ 0 := by positivity
  rw [mul_div_cancel_left₀ _ hne]
  rw [show (32767 : ℝ) * 32767 = 32767 ^ 2 by ring, Real.sqrt_sq (by norm_num)]

lemma altMax_silence_fraction (n : ℕ) (hn : 0 < n) (thr : ℤ) (hthr : thr < 32767) :
    (CalculateAudioStats (altMaxBuffer n) thr).SilenceFraction = 0 := by
  unfold CalculateAudioStats altMaxBuffer
  rw [if_neg (by simp; omega)]
  dsimp only
  have hfil : ((List.range n).map (fun i => if i % 2 = 0 then (32767 : ℤ) else -32767)).filter
      (fun s => decide (goAbsInt16 s ≤ thr)) = [] := by
    rw [List.filter_eq_nil_iff]
    intro x hx
    rw [List.mem_map] at hx
    obtain ⟨i, -, hxi⟩ := hx
    rw [← hxi]
    by_cases h : i % 2 = 0
    · simp only [h, if_true, decide_eq_true_eq, goAbsInt16, wrapInt16]
      norm_num
      omega
    · simp only [h, if_false, decide_eq_true_eq, goAbsInt16, wrapInt16]
      norm_num
      omega
  rw [hfil]
  simp

/-- C9 counterexample.  With the positive thresholds `rmsThreshold = 40000`
and `silenceRatioThreshold = 0.5`, the buffer alternating at maximum
amplitude is classified SILENT (its RMS, 32767, is below 40000), refuting
the claim's "for positive thresholds ... classified non-silent". -/
theorem silence_altbuffer_counterexample :
    (0 : ℝ) < 40000 ∧ (0 : ℝ) < 0.5 ∧ IsSilent (altMaxBuffer 2) 40000 0.5 := by
  refine ⟨by norm_num, by norm_num, ?_⟩
  right
  left
  rw [altMax_rms 2 (by norm_num)]
  norm_num

/-- C9 (amended).  For a non-empty block, IsSilent holds exactly when the RMS
is below `rmsThreshold` or the silence fraction at the derived per-sample
threshold `int16(rmsThreshold * 0.5)` exceeds `silenceRatioThreshold` (each
disjunct independently sufficient); an all-zero buffer is silent for positive
thresholds; and the alternating ±32767 buffer is non-silent provided
`rmsThreshold` does not exceed the buffer's RMS of 32767 and
`silenceRatioThreshold` is nonnegative (for larger RMS thresholds the first
disjunct fires and the buffer is classified silent, as the counterexample
shows). -/
theorem silence_classifier_characterisation :
    (∀ (samples : List ℤ) (a b : ℝ), samples ≠ [] →
      (IsSilent samples a b ↔ (CalculateRMS samples < a ∨
        (CalculateAudioStats samples
          (float64TruncToInt (a * 0.5))).SilenceFraction > b))) ∧
    (∀ (a b : ℝ) (n : ℕ), 0 < a → 0 < b → IsSilent (List.replicate n 0) a b) ∧
    (∀ (a b : ℝ) (n : ℕ), 0 < n → a ≤ 32767 → 0 ≤ b →
      ¬ IsSilent (altMaxBuffer n) a b) := by
  refine ⟨?_, ?_, ?_⟩
  · intro samples a b hne
    unfold IsSilent
    constructor
    · rintro (h | h | h)
      · exact absurd (List.length_eq_zero.mp h) hne
      · exact Or.inl h
      · exact Or.inr h
    · rintro (h | h)
      · exact Or.inr (Or.inl h)
      · exact Or.inr (Or.inr h)
  · intro a b n ha hb
    by_cases hn : n = 0
    · exact Or.inl (by simp [hn])
    · refine Or.inr (Or.inl ?_)
      rw [CalculateRMS_replicate_zero]
      exact ha
  · intro a b n hn ha hb
    unfold IsSilent
    push_neg
    refine ⟨?_, ?_, ?_⟩
    · rw [altMaxBuffer_length]
      omega
    · rw [altMax_rms n hn]
      exact ha
    · have hthr : float64TruncToInt (a * 0.5) < 32767 := by
        unfold float64TruncToInt
        split
        · next h =>
          have : a * 0.5 < (32767 : ℝ) := by linarith
          exact_mod_cast Int.floor_lt.mpr (by exact_mod_cast this)
        · next h =>
          have h2 : a * 0.5 ≤ 0 := le_of_not_le h
          have h3 : (⌈a * 0.5⌉ : ℤ) ≤ 0 := Int.ceil_le.mpr (by exact_mod_cast h2)
          omega
      rw [altMax_silence_fraction n hn _ hthr]
      exact hb

theorem silence_classifier_witness :
    (([(5 : ℤ)] ≠ []) ∧
      (IsSilent [(5 : ℤ)] 100 0.5 ↔ (CalculateRMS [(5 : ℤ)] < 100 ∨
        (CalculateAudioStats [(5 : ℤ)]
          (float64TruncToInt ((100 : ℝ) * 0.5))).SilenceFraction > 0.5))) ∧
    ((0 : ℝ) < 100 ∧ (0 : ℝ) < 0.5 ∧ IsSilent (List.replicate 3 0) 100 0.5) ∧
    (0 < 2 ∧ (100 : ℝ) ≤ 32767 ∧ (0 : ℝ) ≤ 0.5 ∧
      ¬ IsSilent (altMaxBuffer 2) 100 0.5) := by
  have h := silence_classifier_characterisation
  exact ⟨⟨by decide, h.1 [5] 100 0.5 (by decide)⟩,
    ⟨by norm_num, by norm_num, h.2.1 100 0.5 3 (by norm_num) (by norm_num)⟩,
    ⟨by norm_num, by norm_num, by norm_num,
      h.2.2 100 0.5 2 (by norm_num) (by norm_num) (by norm_num)⟩⟩

/-! ## Player (src/internal/audio/player.go) -/

/-- Signed 16-bit reinterpretation of a 16-bit pattern. -/
def toSigned16 (v : ℕ) : ℤ :=
  if v % 65536 < 32768 then ((v % 65536 : ℕ) : ℤ) else ((v % 65536 : ℕ) : ℤ) - 65536

/-- Little-endian int16 decode of two bytes, `int16(lo) | int16(hi) << 8`
(player.go:220): for byte-range inputs the OR of the disjoint patterns is
the sum `lo + 256 * hi` reinterpreted as signed 16-bit. -/
def decodeInt16LE (lo hi : ℕ) : ℤ := toSigned16 (lo + 256 * hi)

/-- Player state (player.go:16-37): the ring buffer plus the playing and
completion flags.  The transient `interrupted` flag is always false again
once `StopPlayback` has returned, so it is not carried. -/
structure Player where
  audioBuffer : RingBuffer
  isPlaying : Bool
  audioComplete : Bool

/-- `Player.IsPlaying` (player.go:144-148). -/
def Player.IsPlaying (p : Player) : Bool := p.isPlaying

/-- `Player.SetAudioComplete` (player.go:95-103). -/
def Player.SetAudioComplete (p : Player) (complete : Bool) : Player :=
  { p with audioComplete := complete }

/-- `Player.ClearBuffer` (player.go:106-111). -/
def Player.ClearBuffer (p : Player) : Player :=
  { p with audioBuffer := p.audioBuffer.Clear }

/-- `Player.StopPlayback` (player.go:114-141), sequentialised: the stream
abort and the join with the playback goroutine leave `isPlaying` false, then
the ring buffer is cleared and the completion flag reset. -/
def Player.StopPlayback (p : Player) : Player :=
  { p with isPlaying := false, audioBuffer := p.audioBuffer.Clear, audioComplete := false }

/-- The body of the stream callback in `playAudio` (player.go:204-228)
writing one output slice: `prev` is the hardware out slice before the
callback (to show no stale data survives), `outBytes` the bytes the ring
buffer returned.  Index `i` gets the decoded sample below `n/2`, and 0 in
the zero-fill loop that runs whenever `n < len(outBytes) = 2*len(out)`. -/
def playCallbackFill (prev : List ℤ) (outBytes : List ℕ) : List ℤ :=
  (List.range prev.length).map (fun (i : ℕ) =>
    if i < outBytes.length / 2 then
      decodeInt16LE (outBytes.getD (2 * i) 0) (outBytes.getD (2 * i + 1) 0)
    else if outBytes.length < 2 * prev.length then 0
    else prev.getD i 0)

/-- One playback hardware pull for `prev.length` samples: read up to
`2 * len(out)` bytes from the ring buffer, then fill the out slice. -/
def Player.playCallback (p : Player) (prev : List ℤ) : Player × List ℤ :=
  let res := p.audioBuffer.Read (2 * prev.length)
  ({ p with audioBuffer := res.1 }, playCallbackFill prev res.2.1)

/-- C5.  When the ring buffer supplies `n < 2N` bytes on a pull for N output
samples, the first `n / 2` output samples are the little-endian 16-bit
decoding of the bytes read and every remaining output sample is 0 — no
leftover data from a previous callback survives. -/
theorem player_zero_fill_on_underrun (p : Player) (prev : List ℤ)
    (hshort : ((p.audioBuffer.Read (2 * prev.length)).2.1).length < 2 * prev.length) :
    ((p.playCallback prev).2).length = prev.length ∧
    (∀ i, i < ((p.audioBuffer.Read (2 * prev.length)).2.1).length / 2 →
      ((p.playCallback prev).2).getD i 0 =
        decodeInt16LE (((p.audioBuffer.Read (2 * prev.length)).2.1).getD (2 * i) 0)
          (((p.audioBuffer.Read (2 * prev.length)).2.1).getD (2 * i + 1) 0)) ∧
    (∀ i, ((p.audioBuffer.Read (2 * prev.length)).2.1).length / 2 ≤ i → i < prev.length →
      ((p.playCallback prev).2).getD i 0 = 0) := by
  unfold Player.playCallback playCallbackFill
  dsimp only
  refine ⟨by simp, ?_, ?_⟩
  · intro i hi
    have hilt : i < prev.length := by omega
    rw [List.getD_eq_getElem _ 0 (by simp [hilt])]
    simp only [List.getElem_map, List.getElem_range]
    rw [if_pos hi]
  · intro i h1 h2
    rw [List.getD_eq_getElem _ 0 (by simp [h2])]
    simp only [List.getElem_map, List.getElem_range]
    rw [if_neg (by omega), if_pos hshort]

/-- Player whose ring buffer holds 2 bytes, about to be pulled for 2 samples
(4 bytes): an underrun. -/
def playerC5 : Player :=
  { audioBuffer := ((RingBuffer.New 8).Write [1, 2]).1,
    isPlaying := true, audioComplete := false }

theorem player_zero_fill_witness :
    (((playerC5.audioBuffer.Read (2 * ([7, 7] : List ℤ).length)).2.1).length <
      2 * ([7, 7] : List ℤ).length) ∧
    (playerC5.playCallback [7, 7]).2 = [513, 0] ∧
    ((playerC5.playCallback [7, 7]).2).getD 1 0 = 0 := by
  have h := player_zero_fill_on_underrun playerC5 [7, 7] (by decide)
  exact ⟨by decide, by decide, h.2.2 1 (by decide) (by decide)⟩

/-! ## Session state machine and orchestrator (the App of the GPIO/wake
mode, src/unnamed/part_002) -/

/-- `AppState` (part_002:221-228). -/
inductive AppState where
  | StateSleeping
  | StateWaitingResponse
  | StateActive
deriving DecidableEq

/-- A call the App makes on the transport client, recorded in a log.
`wakeAudioMsg` is `SendWakeAudio`, `audioStream` is `SendAudioStream`,
`audioComplete` is `SendAudioComplete`, `cancelOutput` is
`SendCancelOutput`, `updateConfig` is `SendUpdateConfig`. -/
inductive WsSend where
  | updateConfig (requestID : String)
  | wakeAudioMsg (requestID : String) (samples : List ℤ)
  | audioStream (requestID : String)
  | audioComplete (requestID : String)
  | cancelOutput (requestID : String)
deriving DecidableEq

/-- The App fields the wake/GPIO session machine touches (part_002:231-263),
sequentialised: handlers run to completion and transport sends succeed and
are appended to `sent`.  The config field `Wake.SilenceRatio` is named
`silenceRatioCfg` here. -/
structure App where
  controlMode : String
  state : AppState
  currentRequestID : String
  wakeBuffer : List ℤ
  wakeBufferMaxSize : ℕ
  silenceBuffer : List ℤ
  silenceBufferSize : ℕ
  player : Player
  wsConnected : Bool
  silenceThresholdRMS : ℝ
  silenceRatioCfg : ℝ
  sent : List WsSend

/-- `App.interruptCurrentSession` (part_002:538-567): stop playback if
playing, clear the silence buffer, clear the wake buffer, then send a
cancel signal for the current request id when one is set. -/
def App.interruptCurrentSession (app : App) : App :=
  let a1 := if app.player.IsPlaying then { app with player := app.player.StopPlayback } else app
  let a2 := { a1 with silenceBuffer := [] }
  let a3 := { a2 with wakeBuffer := [] }
  if a3.currentRequestID ≠ "" then
    { a3 with sent := a3.sent ++ [WsSend.cancelOutput a3.currentRequestID] }
  else a3

/-- `App.HandleOutputTextStream` (part_002:808-823): on a user text chunk of
length at least 2 while playing, only `player.StopPlayback()` is called. -/
def App.HandleOutputTextStream (app : App) (role text : String) : App :=
  if role = "user" ∧ 2 ≤ text.length then
    if app.player.IsPlaying then { app with player := app.player.StopPlayback } else app
  else app

/-- `App.OnGpioWake` (part_002:475-535): requires the socket connected;
interrupts a non-sleeping session; installs the freshly generated request id
(the time-based `GenerateRequestID` is modelled as the parameter); then the
worker sends the config update and the wake-buffer audio and stores
WaitingResponse. -/
def App.OnGpioWake (app : App) (newRequestID : String) : App :=
  if app.wsConnected = false then app
  else
    let a1 := if app.state ≠ AppState.StateSleeping then app.interruptCurrentSession else app
    let a2 := { a1 with currentRequestID := newRequestID }
    let wakeAudio := a2.wakeBuffer
    let a3 := { a2 with sent := a2.sent ++
      [WsSend.updateConfig newRequestID, WsSend.wakeAudioMsg newRequestID wakeAudio] }
    { a3 with state := AppState.StateWaitingResponse }

/-- `App.HandleOutputAudioComplete` (part_002:788-805): set the player's
completion flag; in GPIO mode and WaitingResponse, clear the silence buffer
and store Active. -/
def App.HandleOutputAudioComplete (app : App) : App :=
  let a1 := { app with player := app.player.SetAudioComplete true }
  if a1.controlMode = "gpio" ∧ a1.state = AppState.StateWaitingResponse then
    { a1 with silenceBuffer := [], state := AppState.StateActive }
  else a1

/-- `App.transitionToSleeping` (part_002:717-748): send the end-of-audio
signal for the current request, clear both buffers, store Sleeping. -/
def App.transitionToSleeping (app : App) : App :=
  let a1 := { app with sent := app.sent ++ [WsSend.audioComplete app.currentRequestID] }
  let a2 := { a1 with silenceBuffer := [] }
  let a3 := { a2 with wakeBuffer := [] }
  { a3 with state := AppState.StateSleeping }

/-- One tick of `silenceCheckLoop` (part_002:669-714) as a step relation:
skip unless Active; skip when the window is under half full; skip on a
non-silent verdict; otherwise run `transitionToSleeping`. -/
inductive SilenceTick : App → App → Prop where
  | notActive (app : App) : app.state ≠ AppState.StateActive → SilenceTick app app
  | belowHalf (app : App) : app.state = AppState.StateActive →
      app.silenceBuffer.length < app.silenceBufferSize / 2 → SilenceTick app app
  | notSilent (app : App) : app.state = AppState.StateActive →
      app.silenceBufferSize / 2 ≤ app.silenceBuffer.length →
      ¬ IsSilent app.silenceBuffer app.silenceThresholdRMS app.silenceRatioCfg →
      SilenceTick app app
  | fire (app : App) : app.state = AppState.StateActive →
      app.silenceBufferSize / 2 ≤ app.silenceBuffer.length →
      IsSilent app.silenceBuffer app.silenceThresholdRMS app.silenceRatioCfg →
      SilenceTick app app.transitionToSleeping

/-- A playing session in Active state, with both buffers nonempty and a
request id set. -/
def appC4 : App :=
  { controlMode := "gpio", state := AppState.StateActive, currentRequestID := "r1",
    wakeBuffer := [2], wakeBufferMaxSize := 10,
    silenceBuffer := [1], silenceBufferSize := 10,
    player := { audioBuffer := ((RingBuffer.New 4).Write [8]).1,
                isPlaying := true, audioComplete := false },
    wsConnected := true, silenceThresholdRMS := 0, silenceRatioCfg := 0, sent := [] }

/-- C4 counterexample.  A user text chunk of length 2 arrives while playback
is active, yet the handler leaves the silence window and wake buffer intact
and sends no cancellation for the active request id — the interruption
routine does not run, only `StopPlayback`. -/
theorem text_trigger_counterexample :
    appC4.player.IsPlaying = true ∧
    (appC4.HandleOutputTextStream "user" "hi").silenceBuffer = [1] ∧
    (appC4.HandleOutputTextStream "user" "hi").wakeBuffer = [2] ∧
    (appC4.HandleOutputTextStream "user" "hi").sent = [] := by
  refine ⟨by decide, by decide, by decide, by decide⟩

/-- C4 (amended).  Whenever a response text chunk with role "user" and text
length at least 2 arrives while playback is active, only playback is stopped
(the playing flag drops, the player's ring buffer is cleared and its
completion flag reset); the silence-detection window, the wake buffer and
the transport log are left untouched — no cancellation is sent in this
path. -/
theorem text_trigger_stops_playback_only (app : App) (role text : String)
    (hplay : app.player.IsPlaying = true) (hrole : role = "user")
    (hlen : 2 ≤ text.length) :
    (app.HandleOutputTextStream role text).player.isPlaying = false ∧
    (app.HandleOutputTextStream role text).player.audioBuffer.Length = 0 ∧
    (app.HandleOutputTextStream role text).player.audioComplete = false ∧
    (app.HandleOutputTextStream role text).silenceBuffer = app.silenceBuffer ∧
    (app.HandleOutputTextStream role text).wakeBuffer = app.wakeBuffer ∧
    (app.HandleOutputTextStream role text).sent = app.sent := by
  unfold App.HandleOutputTextStream
  rw [if_pos ⟨hrole, hlen⟩, if_pos hplay]
  refine ⟨rfl, ?_, rfl, rfl, rfl, rfl⟩
  simp [Player.StopPlayback, RingBuffer.Clear, RingBuffer.Length]

theorem text_trigger_stops_playback_only_witness :
    appC4.player.IsPlaying = true ∧
    (appC4.HandleOutputTextStream "user" "hi").player.isPlaying = false ∧
    (appC4.HandleOutputTextStream "user" "hi").player.audioBuffer.Length = 0 := by
  have h := text_trigger_stops_playback_only appC4 "user" "hi" (by decide) rfl (by decide)
  exact ⟨by decide, h.1, h.2.1⟩

/-- C6.  The wake/GPIO session machine: a wake trigger in Sleeping (socket
connected) moves to WaitingResponse under the freshly allocated request id;
a playback-complete event in WaitingResponse clears the silence window and
moves to Active; and a silence tick with a silent verdict on an
at-least-half-full window in Active sends the end-of-audio signal for the
current request, clears both buffers, and moves to Sleeping. -/
theorem session_state_transitions :
    (∀ (app : App) (newRequestID : String),
      app.wsConnected = true → app.state = AppState.StateSleeping →
      (app.OnGpioWake newRequestID).state = AppState.StateWaitingResponse ∧
      (app.OnGpioWake newRequestID).currentRequestID = newRequestID) ∧
    (∀ app : App, app.controlMode = "gpio" → app.state = AppState.StateWaitingResponse →
      app.HandleOutputAudioComplete.silenceBuffer = [] ∧
      app.HandleOutputAudioComplete.state = AppState.StateActive) ∧
    (∀ (app app2 : App), SilenceTick app app2 →
      app.state = AppState.StateActive →
      app.silenceBufferSize / 2 ≤ app.silenceBuffer.length →
      IsSilent app.silenceBuffer app.silenceThresholdRMS app.silenceRatioCfg →
      (WsSend.audioComplete app.currentRequestID ∈ app2.sent ∧
        app2.wakeBuffer = [] ∧ app2.silenceBuffer = [] ∧
        app2.state = AppState.StateSleeping)) := by
  refine ⟨?_, ?_, ?_⟩
  · intro app newRequestID hws hstate
    unfold App.OnGpioWake
    rw [if_neg (by simp [hws])]
    dsimp only
    exact ⟨rfl, rfl⟩
  · intro app hmode hstate
    unfold App.HandleOutputAudioComplete
    dsimp only
    rw [if_pos ⟨hmode, hstate⟩]
    exact ⟨rfl, rfl⟩
  · intro app app2 htick hstate hhalf hsilent
    cases htick with
    | notActive h => exact absurd hstate h
    | belowHalf h1 h2 => omega
    | notSilent h1 h2 h3 => exact absurd hsilent h3
    | fire h1 h2 h3 =>
      refine ⟨?_, rfl, rfl, rfl⟩
      unfold App.transitionToSleeping
      dsimp only
      simp

/-- A sleeping, connected session. -/
def appC6a : App :=
  { controlMode := "gpio", state := AppState.StateSleeping, currentRequestID := "",
    wakeBuffer := [], wakeBufferMaxSize := 10, silenceBuffer := [], silenceBufferSize := 4,
    player := { audioBuffer := RingBuffer.New 4, isPlaying := false, audioComplete := false },
    wsConnected := true, silenceThresholdRMS := 0, silenceRatioCfg := 0, sent := [] }

/-- A session awaiting the wake response. -/
def appC6b : App :=
  { controlMode := "gpio", state := AppState.StateWaitingResponse, currentRequestID := "r2",
    wakeBuffer := [], wakeBufferMaxSize := 10, silenceBuffer := [5], silenceBufferSize := 4,
    player := { audioBuffer := RingBuffer.New 4, isPlaying := false, audioComplete := false },
    wsConnected := true, silenceThresholdRMS := 0, silenceRatioCfg := 0, sent := [] }

/-- An active session with a half-full all-zero silence window. -/
def appC6c : App :=
  { controlMode := "gpio", state := AppState.StateActive, currentRequestID := "r9",
    wakeBuffer := [3], wakeBufferMaxSize := 10,
    silenceBuffer := [0, 0], silenceBufferSize := 2,
    player := { audioBuffer := RingBuffer.New 4, isPlaying := false, audioComplete := false },
    wsConnected := true, silenceThresholdRMS := 100, silenceRatioCfg := 0.5, sent := [] }

theorem session_state_transitions_witness :
    ((appC6a.OnGpioWake "id1").state = AppState.StateWaitingResponse ∧
      (appC6a.OnGpioWake "id1").currentRequestID = "id1") ∧
    (appC6b.HandleOutputAudioComplete.silenceBuffer = [] ∧
      appC6b.HandleOutputAudioComplete.state = AppState.StateActive) ∧
    (WsSend.audioComplete "r9" ∈ appC6c.transitionToSleeping.sent ∧
      appC6c.transitionToSleeping.wakeBuffer = [] ∧
      appC6c.transitionToSleeping.silenceBuffer = [] ∧
      appC6c.transitionToSleeping.state = AppState.StateSleeping) := by
  have h := session_state_transitions
  have hsil : IsSilent appC6c.silenceBuffer appC6c.silenceThresholdRMS appC6c.silenceRatioCfg := by
    refine Or.inr (Or.inl ?_)
    have hz : CalculateRMS (List.replicate 2 0) = 0 := CalculateRMS_replicate_zero 2
    show CalculateRMS (List.replicate 2 0) < 100
    rw [hz]
    norm_num
  have htick := SilenceTick.fire appC6c (by decide) (by decide) hsil
  exact ⟨h.1 appC6a "id1" (by decide) (by decide),
    h.2.1 appC6b (by decide) (by decide),
    h.2.2 appC6c _ htick (by decide) (by decide) hsil⟩
